import Mathlib

/-!
Verification development for the variant evaluation harness in
src/openai-evals-ai-evaluator/src/main.py.

The shallow embedding below translates the harness logic from the source:
Python values that flow through the comparator are modelled by the
inductive type Value, Python floats by rationals extended with the two
infinities, and each call into the execution backend by a function from
the test input to an ExecOutcome record. Machine-level float rounding is
not modelled; the literals of the source are carried over as exact
rationals.
-/

/-- Model of a Python float: a finite rational, or one of the two
infinities that appear in the float test pool. NaN never appears in any
literal of the source, so it is not modelled. -/
inductive PyFloat where
  | fin (q : Rat)
  | inf
  | negInf
deriving DecidableEq, Repr

/-- Model of the Python values that flow through the harness: the test
inputs, the outputs of executed functions, and the oracle entries.
vNone models the Python value None, which the source uses both as a data
value and as the oracle failure sentinel. -/
inductive Value where
  | vInt (n : Int)
  | vFloat (f : PyFloat)
  | vBool (b : Bool)
  | vStr (s : String)
  | vList (xs : List Value)
  | vDict (entries : List (Value × Value))
  | vSet (xs : List Value)
  | vNone
deriving Repr

/-- Python treats bool as a subclass of int, so isinstance(x, (int, float))
accepts booleans; this function embeds that numeric view, mapping a
numeric value to the rational-with-infinities model and everything else
to none. True counts as 1 and False as 0, as in Python. -/
def numVal : Value → Option PyFloat
  | Value.vInt n => some (PyFloat.fin n)
  | Value.vFloat f => some f
  | Value.vBool b => some (PyFloat.fin (if b then 1 else 0))
  | _ => none

mutual

/-- Embedding of the Python equality operator, restricted to the value
model. Numbers compare across int, float and bool by numeric value, as
in Python; lists compare pointwise; dicts and sets compare as unordered
collections of distinct keys and elements, which matches Python equality
on well-formed dicts and sets; values of unrelated types are unequal. -/
def pyEq (x y : Value) : Bool :=
  match x, y with
  | Value.vList a, Value.vList b => pyEqList a b
  | Value.vDict a, Value.vDict b => a.length == b.length && pyDictSub a b
  | Value.vSet a, Value.vSet b => a.length == b.length && pySetSub a b
  | Value.vStr a, Value.vStr b => a == b
  | Value.vNone, Value.vNone => true
  | x, y =>
    match numVal x, numVal y with
    | some a, some b => a == b
    | _, _ => false
termination_by sizeOf x + sizeOf y
decreasing_by all_goals (simp_wf; try omega)

/-- Pointwise Python equality of two lists of values. -/
def pyEqList : List Value → List Value → Bool
  | [], [] => true
  | x :: xs, y :: ys => pyEq x y && pyEqList xs ys
  | _, _ => false
termination_by a b => sizeOf a + sizeOf b
decreasing_by all_goals (simp_wf; try omega)

/-- Whether a dict entry list contains a pair whose key and value are
Python-equal to the given key and value. -/
def pyDictMemPair (k v : Value) : List (Value × Value) → Bool
  | [] => false
  | (k2, v2) :: rest => (pyEq k k2 && pyEq v v2) || pyDictMemPair k v rest
termination_by l => sizeOf k + sizeOf v + sizeOf l
decreasing_by all_goals (simp_wf; try omega)

/-- Whether every entry of the first dict entry list occurs in the
second, under Python equality. -/
def pyDictSub : List (Value × Value) → List (Value × Value) → Bool
  | [], _ => true
  | (k, v) :: rest, b => pyDictMemPair k v b && pyDictSub rest b
termination_by a b => sizeOf a + sizeOf b
decreasing_by all_goals (simp_wf; try omega)

/-- Whether a set element list contains an element Python-equal to the
given value. -/
def pySetMem (x : Value) : List Value → Bool
  | [] => false
  | y :: ys => pyEq x y || pySetMem x ys
termination_by l => sizeOf x + sizeOf l
decreasing_by all_goals (simp_wf; try omega)

/-- Whether every element of the first set element list occurs in the
second, under Python equality. -/
def pySetSub : List Value → List Value → Bool
  | [], _ => true
  | x :: xs, b => pySetMem x b && pySetSub xs b
termination_by a b => sizeOf a + sizeOf b
decreasing_by all_goals (simp_wf; try omega)

end

/-- Model of the Python repr of a float, used only inside the string
fallback of the comparator; the exact digit string of a Python float is
not modelled, only a deterministic textual form per value. -/
def pyFloatRepr : PyFloat → String
  | PyFloat.fin q => if q.den == 1 then toString q.num ++ ".0" else toString q
  | PyFloat.inf => "inf"
  | PyFloat.negInf => "-inf"

mutual

/-- Embedding of the Python repr function on the value model; containers
render their elements with repr, strings gain quotes, exactly as Python
does inside container text. -/
def pyRepr : Value → String
  | Value.vInt n => toString n
  | Value.vFloat f => pyFloatRepr f
  | Value.vBool b => if b then "True" else "False"
  | Value.vStr s => "\x27" ++ s ++ "\x27"
  | Value.vNone => "None"
  | Value.vList xs => "[" ++ pyReprSeq xs ++ "]"
  | Value.vSet xs =>
    if xs.isEmpty then "set()" else "\x7b" ++ pyReprSeq xs ++ "\x7d"
  | Value.vDict es => "\x7b" ++ pyReprDictSeq es ++ "\x7d"
termination_by v => sizeOf v
decreasing_by all_goals (simp_wf; try omega)

/-- Comma-separated reprs of a list of values. -/
def pyReprSeq : List Value → String
  | [] => ""
  | [x] => pyRepr x
  | x :: rest => pyRepr x ++ ", " ++ pyReprSeq rest
termination_by l => sizeOf l
decreasing_by all_goals (simp_wf; try omega)

/-- Comma-separated reprs of dict entries. -/
def pyReprDictSeq : List (Value × Value) → String
  | [] => ""
  | [(k, v)] => pyRepr k ++ ": " ++ pyRepr v
  | (k, v) :: rest => pyRepr k ++ ": " ++ pyRepr v ++ ", " ++ pyReprDictSeq rest
termination_by l => sizeOf l
decreasing_by all_goals (simp_wf; try omega)

end

/-- Embedding of the Python str function on the value model: identity on
strings, repr on everything else. -/
def pyStr : Value → String
  | Value.vStr s => s
  | v => pyRepr v

/-- Whether a value is a Python list; embeds isinstance(x, list). -/
def isListV : Value → Bool
  | Value.vList _ => true
  | _ => false

/-- Whether a value is a Python dict; embeds isinstance(x, dict). -/
def isDictV : Value → Bool
  | Value.vDict _ => true
  | _ => false

/-- Whether a value is a Python set; embeds isinstance(x, set). -/
def isSetV : Value → Bool
  | Value.vSet _ => true
  | _ => false

/-- Whether a value is numeric in the sense of isinstance(x, (int, float));
because Python bool is a subclass of int, booleans count as numeric. -/
def isNumV (v : Value) : Bool :=
  (numVal v).isSome

/-- Whether a value is a Python str; embeds isinstance(x, str). -/
def isStrV : Value → Bool
  | Value.vStr _ => true
  | _ => false

/-- Whether a value is the Python value None; embeds x is None. -/
def isNoneV : Value → Bool
  | Value.vNone => true
  | _ => false

/-- Embedding of abs(a - b) < 1e-9 on the numeric views of two values
(source line 666-668). Python arithmetic on infinities makes the
difference infinite or NaN, and in both situations the strict comparison
with the epsilon is False, so any infinite operand yields false. -/
def numAbsDiffLtEps (x y : Value) : Bool :=
  match numVal x, numVal y with
  | some (PyFloat.fin a), some (PyFloat.fin b) => |a - b| < (1e-9 : Rat)
  | _, _ => false

/-- Embedding of the Python str.lower method (ASCII case folding) as a
computation on the character list of the string. -/
def strLower (s : String) : String :=
  String.mk (s.data.map Char.toLower)

/-- Embedding of the Python str.strip method with no argument: drop
whitespace from both ends of the string. -/
def strStrip (s : String) : String :=
  String.mk (((s.data.dropWhile Char.isWhitespace).reverse.dropWhile
    Char.isWhitespace).reverse)

/-- Embedding of s.strip().lower() applied to a Python string. -/
def stripLower (s : String) : String :=
  strLower (strStrip s)

/-- Embedding of the type-directed output comparison of test_version,
source lines 658-673: the branches are tried in the order of the source
(list, dict, set, numeric, string, string-representation fallback). The
try/except around the source comparison can only fire on exceptions that
the pure value model cannot raise, so it has no counterpart here. -/
def compareOutputs (result expected : Value) : Bool :=
  if isListV result && isListV expected then
    pyEq result expected
  else if isDictV result && isDictV expected then
    pyEq result expected
  else if isSetV result && isSetV expected then
    pyEq result expected
  else if isNumV result && isNumV expected then
    numAbsDiffLtEps result expected
  else if isStrV result && isStrV expected then
    stripLower (pyStr result) == stripLower (pyStr expected)
  else
    pyStr result == pyStr expected

/-- Outcome of executing one function against one input inside a
workspace, as returned by WorkspaceManager.execute_function: a success
flag, the produced value (or the error text as a string value on
failure), and the execution time in seconds, modelled as a rational. -/
structure ExecOutcome where
  success : Bool
  result : Value
  time : Rat
deriving Repr

/-- One entry of the per-case result list that test_version appends for
every validation case (source lines 686-692). -/
structure CaseResult where
  input : List Value
  expected : Value
  output : Value
  success : Bool
  time : Rat
deriving Repr

/-- The per-variant report built by test_version: id and code carry no
logic and are omitted from the model; successes, total_time and
test_results are the fields the selector and the claims read. -/
structure VersionResults where
  successes : Nat
  total_time : Rat
  test_results : List CaseResult
deriving Repr

/-- Embedding of the output_valid computation of test_version, source
lines 650-684: with a None expected output the variant is valid exactly
when it failed; otherwise a successful variant is judged by
compareOutputs and a failed variant is invalid. -/
def outputValid (expected : Value) (success : Bool) (result : Value) : Bool :=
  if isNoneV expected then
    !success
  else if success then
    compareOutputs result expected
  else
    false

/-- Embedding of the success-counting condition of test_version, source
line 694: an expected-failure case counts when the variant failed, and a
normal case counts when the variant succeeded with a valid output. -/
def countsAsSuccess (expected : Value) (o : ExecOutcome) : Bool :=
  (isNoneV expected && !o.success) ||
    (!(isNoneV expected) && o.success && outputValid expected o.success o.result)

/-- The per-case record appended by test_version, source lines 686-692;
the recorded success flag is output_valid alone for expected-failure
cases and success combined with output_valid otherwise. -/
def caseEntry (test_input : List Value) (expected : Value) (o : ExecOutcome) : CaseResult :=
  { input := test_input
    expected := expected
    output := o.result
    success :=
      if isNoneV expected then outputValid expected o.success o.result
      else o.success && outputValid expected o.success o.result
    time := o.time }

/-- Embedding of one iteration of the case loop of test_version, source
lines 645-699: append the per-case record, then increment successes on a
counting case and add the case latency to total_time only when the
expected output is not None. -/
def processCase (acc : VersionResults) (test_input : List Value) (expected : Value)
    (o : ExecOutcome) : VersionResults :=
  let acc1 : VersionResults :=
    { acc with test_results := acc.test_results ++ [caseEntry test_input expected o] }
  if countsAsSuccess expected o then
    { acc1 with
      successes := acc1.successes + 1
      total_time := if !(isNoneV expected) then acc1.total_time + o.time else acc1.total_time }
  else
    acc1

/-- Embedding of test_version, source lines 633-702: starting from the
zeroed report, run every validation case in order against the variant
(modelled as a function from the test input to the execution outcome)
and fold the per-case update. -/
def test_version (exec : List Value → ExecOutcome)
    (validation_cases : List (List Value × Value)) : VersionResults :=
  validation_cases.foldl (fun acc c => processCase acc c.1 c.2 (exec c.1))
    { successes := 0, total_time := 0, test_results := [] }

/-- The reports of all variants: the source dispatches the per-variant
test_version tasks concurrently through asyncio.gather, which returns
their results in task order; each task owns its local report, so the
gathered list is the per-variant fold applied variant by variant. -/
def runAllVariants (execs : List (List Value → ExecOutcome))
    (validation_cases : List (List Value × Value)) : List VersionResults :=
  execs.map (fun e => test_version e validation_cases)

/-- Embedding of the oracle-building loop of validate_functions, source
lines 742-754: run the baseline on every test case; on success store the
produced value as the expected output, on failure store None. -/
def validate_functions (execBaseline : List Value → ExecOutcome)
    (test_cases : List (List Value)) : List (List Value × Value) :=
  test_cases.map (fun tc =>
    let o := execBaseline tc
    if o.success then (tc, o.result) else (tc, Value.vNone))

/-- Embedding of evaluate_variations, source lines 597-718: build the
validation cases from the baseline, return the empty list when there are
none, deploy every version and return the empty list as soon as any
deployment fails (asyncio.gather propagates the first exception and the
handler returns []), otherwise test every deployed version against the
same validation cases. A deployment is modelled by an optional execution
function: none models a create_workspace call that raises. -/
def evaluate_variations (execBaseline : List Value → ExecOutcome)
    (test_cases : List (List Value))
    (deployments : List (Option (List Value → ExecOutcome))) : List VersionResults :=
  let validation_cases := validate_functions execBaseline test_cases
  if validation_cases.isEmpty then []
  else if deployments.any Option.isNone then []
  else runAllVariants (deployments.filterMap id) validation_cases

/-- Embedding of select_best_version, source lines 834-844, specialised
Python min with key: the fold keeps the current best unless the next
element has a strictly smaller key, so the first element attaining the
minimal key wins. -/
def pyMinByTime (best : VersionResults) : List VersionResults → VersionResults
  | [] => best
  | y :: ys => pyMinByTime (if y.total_time < best.total_time then y else best) ys

/-- The strict comparison of the Python tuple key (successes, -total_time)
used by max in select_best_version: a is smaller than b when a has fewer
successes, or the same successes and a larger total time. -/
def maxKeyLtB (a b : VersionResults) : Bool :=
  a.successes < b.successes ||
    (a.successes == b.successes && b.total_time < a.total_time)

/-- Python max with the tuple key, as used in select_best_version: the
fold keeps the current best unless the next element has a strictly
larger key, so the first element attaining the maximal key wins. -/
def pyMaxByKey (best : VersionResults) : List VersionResults → VersionResults
  | [] => best
  | y :: ys => pyMaxByKey (if maxKeyLtB best y then y else best) ys

/-- The fully-correct filter predicate of select_best_version, source
line 837: the successes of a report equal the length of its own per-case
list. -/
def fullyCorrectB (r : VersionResults) : Bool :=
  r.successes == r.test_results.length

/-- Embedding of select_best_version, source lines 834-844: among the
reports passing every test pick the one with minimal total time,
otherwise pick the report maximising (successes, -total_time); Python
min and max raise on an empty list, modelled by none. -/
def select_best_version (results : List VersionResults) : Option VersionResults :=
  match results.filter fullyCorrectB with
  | f :: fs => some (pyMinByTime f fs)
  | [] =>
    match results with
    | [] => none
    | r :: rs => some (pyMaxByKey r rs)

/-- Embedding of the warning condition of main, source lines 930-931:
the chosen best version is reported with a warning exactly when its
successes fall short of its number of recorded tests. -/
def bestNeedsWarning (best : VersionResults) : Bool :=
  best.successes < best.test_results.length

/-- Whether the character list hay starts with the character list needle. -/
def listStartsWith : List Char → List Char → Bool
  | _, [] => true
  | [], _ :: _ => false
  | h :: hs, n :: ns => h == n && listStartsWith hs ns

/-- Whether the character list needle occurs contiguously in hay. -/
def listHasSub (hay needle : List Char) : Bool :=
  match hay with
  | [] => needle.isEmpty
  | _ :: rest => listStartsWith hay needle || listHasSub rest needle

/-- Embedding of the Python substring test needle in hay on strings. -/
def strHasSub (hay needle : String) : Bool :=
  listHasSub hay.toList needle.toList

/-- The closed set of type categories that the classifier of
generate_test_cases distinguishes through its branch structure; each
category corresponds to one literal pool in the source, and unknown to
the fallback pool of the final else branch. -/
inductive TypeCategory where
  | int
  | float
  | str
  | list
  | bool
  | dict
  | set
  | unknown
deriving DecidableEq, Repr

/-- Embedding of the branch dispatch of generate_test_cases, source
lines 563-578: a lowercase substring test against the type names, tried
in the order of the elif chain of the source, which is int, float, str,
list, bool, dict, set, with the fallback category when nothing matches.
The argument is the Python text str(param_type) of the parameter type. -/
def classifyTypeStr (typeStr : String) : TypeCategory :=
  let s := strLower typeStr
  if strHasSub s "int" then TypeCategory.int
  else if strHasSub s "float" then TypeCategory.float
  else if strHasSub s "str" then TypeCategory.str
  else if strHasSub s "list" then TypeCategory.list
  else if strHasSub s "bool" then TypeCategory.bool
  else if strHasSub s "dict" then TypeCategory.dict
  else if strHasSub s "set" then TypeCategory.set
  else TypeCategory.unknown

/-- The literal pool appended for each category, source lines 563-578,
without the optional default value that the source prepends. -/
def poolOfCategory : TypeCategory → List Value
  | TypeCategory.int =>
    [ Value.vInt 0, Value.vInt 1, Value.vInt (-1), Value.vInt 9999, Value.vInt (-9999)]
  | TypeCategory.float =>
    [ Value.vFloat (PyFloat.fin 0), Value.vFloat (PyFloat.fin 1),
      Value.vFloat (PyFloat.fin (-1)), Value.vFloat (PyFloat.fin (3.14159 : Rat)),
      Value.vFloat PyFloat.inf, Value.vFloat PyFloat.negInf]
  | TypeCategory.str =>
    [ Value.vStr "", Value.vStr "a", Value.vStr "test",
      Value.vStr (String.join (List.replicate 100 "long")), Value.vStr " ",
      Value.vStr "!@#$%^&*()_+", Value.vStr "123abc"]
  | TypeCategory.list =>
    [ Value.vList [], Value.vList [Value.vInt 1],
      Value.vList [Value.vInt 1, Value.vInt 2, Value.vInt 3],
      Value.vList ((List.range 100).map (fun i => Value.vInt i))]
  | TypeCategory.bool => [ Value.vBool true, Value.vBool false]
  | TypeCategory.dict =>
    [ Value.vDict [], Value.vDict [(Value.vStr "key", Value.vStr "value")],
      Value.vDict [(Value.vInt 1, Value.vStr "one"), (Value.vInt 2, Value.vStr "two")],
      Value.vDict ((List.range 10).map (fun i => (Value.vInt i, Value.vInt i)))]
  | TypeCategory.set =>
    [ Value.vSet [], Value.vSet [Value.vInt 1, Value.vInt 2, Value.vInt 3],
      Value.vSet ((List.range 10).map (fun i => Value.vInt i))]
  | TypeCategory.unknown =>
    [ Value.vNone, Value.vInt 0, Value.vInt 1, Value.vInt 5]

/-- Embedding of the elif chain of generate_test_cases, source lines
563-578, as it stands in the source: the chain both classifies and
immediately yields the pool of the branch taken. -/
def basePoolFor (typeStr : String) : List Value :=
  poolOfCategory (classifyTypeStr typeStr)

/-- One parameter of the analysed signature: the Python text
str(param_type) of its declared type (the text of typing.Any when the
parameter carries no type) and its optional default value. -/
structure ParamSpec where
  typeStr : String
  default : Option Value
deriving Repr

/-- The pool of one parameter, source lines 560-578: the optional
default value first, then the literal pool of the matched branch. -/
def paramPool (p : ParamSpec) : List Value :=
  (match p.default with
   | some d => [d]
   | none => []) ++ basePoolFor p.typeStr

/-- Embedding of itertools.product over the per-parameter candidate
lists, leftmost parameter slowest, as Python does. -/
def cartProd : List (List Value) → List (List Value)
  | [] => [[]]
  | xs :: rest => xs.flatMap (fun x => (cartProd rest).map (fun combo => x :: combo))

/-- Embedding of generate_test_cases, source lines 531-595. The parsing
of the function text through exec and inspect.signature is summarised by
the optional parsed signature: none models any exception inside the try
block, which the source turns into the minimal fallback test set. With a
parsed signature, an arity-one signature takes the first six pool values
as single-argument cases, and any other arity takes the cross product of
the first three values of every pool truncated to eight tuples. -/
def generate_test_cases (parsed : Option (List ParamSpec)) : List (List Value) :=
  match parsed with
  | none => [[Value.vInt 0], [Value.vInt 1], [Value.vInt 5]]
  | some sig =>
    match sig with
    | [p] => ((paramPool p).take 6).map (fun v => [v])
    | _ => (cartProd (sig.map (fun p => (paramPool p).take 3))).take 8

/-- A constant execution behaviour, used to build concrete runs. -/
def execConst (o : ExecOutcome) : List Value → ExecOutcome :=
  fun _ => o

/-- The latency a single case contributes to total_time: the case time
when the case counts as a success and its expected output is not None,
and zero otherwise. -/
def latencyContrib (expected : Value) (o : ExecOutcome) : Rat :=
  if countsAsSuccess expected o && !(isNoneV expected) then o.time else 0

lemma processCase_eq (acc : VersionResults) (ti : List Value) (e : Value)
    (o : ExecOutcome) :
    processCase acc ti e o =
      { successes := acc.successes + (if countsAsSuccess e o then 1 else 0)
        total_time := acc.total_time + latencyContrib e o
        test_results := acc.test_results ++ [caseEntry ti e o] } := by
  unfold processCase latencyContrib
  cases h : countsAsSuccess e o with
  | false => simp
  | true =>
    cases hn : isNoneV e with
    | false => simp
    | true => simp

lemma test_version_go (exec : List Value → ExecOutcome) :
    ∀ (cs : List (List Value × Value)) (acc : VersionResults),
      cs.foldl (fun acc c => processCase acc c.1 c.2 (exec c.1)) acc =
        { successes := acc.successes + cs.countP (fun c => countsAsSuccess c.2 (exec c.1))
          total_time := acc.total_time + (cs.map (fun c => latencyContrib c.2 (exec c.1))).sum
          test_results :=
            acc.test_results ++ cs.map (fun c => caseEntry c.1 c.2 (exec c.1)) } := by
  intro cs
  induction cs with
  | nil => intro acc; simp
  | cons c cs ih =>
    intro acc
    rw [List.foldl_cons, ih, processCase_eq]
    simp only [List.countP_cons, List.map_cons, List.sum_cons, VersionResults.mk.injEq]
    refine ⟨by ring, by ring, by simp⟩

/-- The report of test_version in closed form: the successes count the
cases whose outcome matches, the total time sums the per-case latency
contributions, and the per-case list records the cases in order. -/
lemma test_version_eq (exec : List Value → ExecOutcome)
    (cs : List (List Value × Value)) :
    test_version exec cs =
      { successes := cs.countP (fun c => countsAsSuccess c.2 (exec c.1))
        total_time := (cs.map (fun c => latencyContrib c.2 (exec c.1))).sum
        test_results := cs.map (fun c => caseEntry c.1 c.2 (exec c.1)) } := by
  unfold test_version
  rw [test_version_go]
  simp

lemma pyMinByTime_spec :
    ∀ (xs : List VersionResults) (best : VersionResults),
      (∀ z ∈ best :: xs, (pyMinByTime best xs).total_time ≤ z.total_time) ∧
      ∃ i : Nat, (best :: xs)[i]? = some (pyMinByTime best xs) ∧
        ∀ (j : Nat) (r : VersionResults), j < i → (best :: xs)[j]? = some r →
          (pyMinByTime best xs).total_time < r.total_time := by
  intro xs
  induction xs with
  | nil =>
    intro best
    refine ⟨?_, 0, by simp [pyMinByTime], ?_⟩
    · intro z hz
      simp only [List.mem_singleton] at hz
      subst hz
      simp [pyMinByTime]
    · intro j r hj
      omega
  | cons y ys ih =>
    intro best
    by_cases hlt : y.total_time < best.total_time
    · obtain ⟨hle, i, hget, hfirst⟩ := ih y
      have hres : pyMinByTime best (y :: ys) = pyMinByTime y ys := by
        simp [pyMinByTime, hlt]
      rw [hres]
      constructor
      · intro z hz
        rcases List.mem_cons.mp hz with hz | hz
        · subst hz
          have h1 : (pyMinByTime y ys).total_time ≤ y.total_time :=
            hle y (List.mem_cons_self _ _)
          exact le_of_lt (lt_of_le_of_lt h1 hlt)
        · exact hle z hz
      · refine ⟨i + 1, by simpa [List.getElem?_cons_succ] using hget, ?_⟩
        intro j r hj hr
        cases j with
        | zero =>
          simp only [List.getElem?_cons_zero, Option.some.injEq] at hr
          subst hr
          have h1 : (pyMinByTime y ys).total_time ≤ y.total_time :=
            hle y (List.mem_cons_self _ _)
          exact lt_of_le_of_lt h1 hlt
        | succ j2 =>
          have hj2 : j2 < i := by omega
          exact hfirst j2 r hj2 (by simpa [List.getElem?_cons_succ] using hr)
    · obtain ⟨hle, i, hget, hfirst⟩ := ih best
      have hby : best.total_time ≤ y.total_time := le_of_not_lt hlt
      have hres : pyMinByTime best (y :: ys) = pyMinByTime best ys := by
        simp [pyMinByTime, hlt]
      rw [hres]
      constructor
      · intro z hz
        rcases List.mem_cons.mp hz with hz | hz
        · rw [hz]
          exact hle best (List.mem_cons_self _ _)
        · rcases List.mem_cons.mp hz with hz | hz
          · subst hz
            have h1 : (pyMinByTime best ys).total_time ≤ best.total_time :=
              hle best (List.mem_cons_self _ _)
            exact le_trans h1 hby
          · exact hle z (List.mem_cons_of_mem _ hz)
      · cases i with
        | zero =>
          refine ⟨0, by simpa [List.getElem?_cons_zero] using hget, ?_⟩
          intro j r hj
          omega
        | succ k =>
          refine ⟨k + 2, by simpa [List.getElem?_cons_succ] using hget, ?_⟩
          intro j r hj hr
          cases j with
          | zero =>
            simp only [List.getElem?_cons_zero, Option.some.injEq] at hr
            subst hr
            exact hfirst 0 best (by omega) (by simp [List.getElem?_cons_zero])
          | succ j1 =>
            cases j1 with
            | zero =>
              simp only [List.getElem?_cons_succ, List.getElem?_cons_zero,
                Option.some.injEq] at hr
              subst hr
              have h1 : (pyMinByTime best ys).total_time < best.total_time :=
                hfirst 0 best (by omega) (by simp [List.getElem?_cons_zero])
              exact lt_of_lt_of_le h1 hby
            | succ j2 =>
              have hj2 : j2 + 1 < k + 1 := by omega
              exact hfirst (j2 + 1) r hj2
                (by simpa [List.getElem?_cons_succ] using hr)

lemma maxKeyLtB_irrefl (a : VersionResults) : maxKeyLtB a a = false := by
  simp [maxKeyLtB]

lemma maxKeyLtB_trans {a b c : VersionResults} (h1 : maxKeyLtB a b = true)
    (h2 : maxKeyLtB b c = true) : maxKeyLtB a c = true := by
  simp only [maxKeyLtB, Bool.or_eq_true, Bool.and_eq_true, decide_eq_true_eq,
    beq_iff_eq] at h1 h2 ⊢
  rcases h1 with h1 | ⟨h1e, h1t⟩
  · rcases h2 with h2 | ⟨h2e, h2t⟩
    · exact Or.inl (lt_trans h1 h2)
    · exact Or.inl (by omega)
  · rcases h2 with h2 | ⟨h2e, h2t⟩
    · exact Or.inl (by omega)
    · exact Or.inr ⟨by omega, lt_trans h2t h1t⟩

lemma maxKeyLtB_lt_of_not_lt {m y b : VersionResults}
    (h1 : maxKeyLtB m y = true) (h2 : maxKeyLtB b y = false) :
    maxKeyLtB m b = true := by
  simp only [maxKeyLtB, Bool.or_eq_true, Bool.and_eq_true, decide_eq_true_eq,
    beq_iff_eq, Bool.or_eq_false_iff, Bool.and_eq_false_iff,
    decide_eq_false_iff_not, not_lt] at h1 h2 ⊢
  obtain ⟨h2a, h2b⟩ := h2
  rcases h1 with h1 | ⟨h1e, h1t⟩
  · rcases lt_or_eq_of_le h2a with h | h
    · exact Or.inl (by omega)
    · exact Or.inl (by omega)
  · rcases lt_or_eq_of_le h2a with h | h
    · exact Or.inl (by omega)
    · rcases h2b with h2b | h2b
      · simp [beq_iff_eq] at h2b
        omega
      · exact Or.inr ⟨by omega, lt_of_le_of_lt h2b h1t⟩

lemma pyMaxByKey_spec :
    ∀ (xs : List VersionResults) (best : VersionResults),
      pyMaxByKey best xs ∈ best :: xs ∧
      ∀ z ∈ best :: xs, maxKeyLtB (pyMaxByKey best xs) z = false := by
  intro xs
  induction xs with
  | nil =>
    intro best
    refine ⟨by simp [pyMaxByKey], ?_⟩
    intro z hz
    simp only [List.mem_singleton] at hz
    subst hz
    simp [pyMaxByKey, maxKeyLtB_irrefl]
  | cons y ys ih =>
    intro best
    by_cases hby : maxKeyLtB best y = true
    · have hm := ih y
      obtain ⟨hmem, hbound⟩ := hm
      have hres : pyMaxByKey best (y :: ys) = pyMaxByKey y ys := by
        simp [pyMaxByKey, hby]
      rw [hres]
      constructor
      · rcases List.mem_cons.mp hmem with h | h
        · simp [h]
        · exact List.mem_cons_of_mem _ (List.mem_cons_of_mem _ h)
      · intro z hz
        rcases List.mem_cons.mp hz with hz | hz
        · subst hz
          by_cases hc : maxKeyLtB (pyMaxByKey y ys) z = true
          · have h1 : maxKeyLtB (pyMaxByKey y ys) y = true :=
              maxKeyLtB_trans hc hby
            have h2 : maxKeyLtB (pyMaxByKey y ys) y = false :=
              hbound y (List.mem_cons_self _ _)
            rw [h1] at h2
            exact absurd h2 (by simp)
          · simpa using hc
        · exact hbound z hz
    · have hm := ih best
      obtain ⟨hmem, hbound⟩ := hm
      have hbyf : maxKeyLtB best y = false := by
        simpa using hby
      have hres : pyMaxByKey best (y :: ys) = pyMaxByKey best ys := by
        simp [pyMaxByKey, hbyf]
      rw [hres]
      constructor
      · rcases List.mem_cons.mp hmem with h | h
        · simp [h]
        · exact List.mem_cons_of_mem _ (List.mem_cons_of_mem _ h)
      · intro z hz
        rcases List.mem_cons.mp hz with hz | hz
        · subst hz
          exact hbound z (List.mem_cons_self _ _)
        · rcases List.mem_cons.mp hz with hz | hz
          · subst hz
            by_cases hc : maxKeyLtB (pyMaxByKey best ys) z = true
            · have h1 : maxKeyLtB (pyMaxByKey best ys) best = true :=
                maxKeyLtB_lt_of_not_lt hc hbyf
              have h2 : maxKeyLtB (pyMaxByKey best ys) best = false :=
                hbound best (List.mem_cons_self _ _)
              rw [h1] at h2
              exact absurd h2 (by simp)
            · simpa using hc
          · exact hbound z (List.mem_cons_of_mem _ hz)

lemma pyMinByTime_mem :
    ∀ (xs : List VersionResults) (best : VersionResults),
      pyMinByTime best xs ∈ best :: xs := by
  intro xs
  induction xs with
  | nil => intro best; simp [pyMinByTime]
  | cons y ys ih =>
    intro best
    by_cases hlt : y.total_time < best.total_time
    · have h := ih y
      have hres : pyMinByTime best (y :: ys) = pyMinByTime y ys := by
        simp [pyMinByTime, hlt]
      rw [hres]
      rcases List.mem_cons.mp h with h | h
      · simp [h]
      · exact List.mem_cons_of_mem _ (List.mem_cons_of_mem _ h)
    · have h := ih best
      have hres : pyMinByTime best (y :: ys) = pyMinByTime best ys := by
        simp [pyMinByTime, hlt]
      rw [hres]
      rcases List.mem_cons.mp h with h | h
      · simp [h]
      · exact List.mem_cons_of_mem _ (List.mem_cons_of_mem _ h)

lemma filterMap_id_map_some {α : Type} (es : List α) :
    (es.map some).filterMap id = es := by
  induction es with
  | nil => rfl
  | cons e es ih => simp [ih]

lemma any_isNone_map_some {α : Type} (es : List α) :
    (es.map some).any Option.isNone = false := by
  induction es with
  | nil => rfl
  | cons e es ih => simp [ih]

/-- Modelled from the spec: section 4.1 lists the substring match set in
the order int, float, str, list, dict, set, bool and says the first
match wins in that priority order; this definition follows those words,
to be compared with classifyTypeStr taken from the source. -/
def classifySpecOrder (typeStr : String) : TypeCategory :=
  let s := strLower typeStr
  if strHasSub s "int" then TypeCategory.int
  else if strHasSub s "float" then TypeCategory.float
  else if strHasSub s "str" then TypeCategory.str
  else if strHasSub s "list" then TypeCategory.list
  else if strHasSub s "dict" then TypeCategory.dict
  else if strHasSub s "set" then TypeCategory.set
  else if strHasSub s "bool" then TypeCategory.bool
  else TypeCategory.unknown

/-- Claim C5: when both the variant and the oracle produced a value,
equivalence is decided by type-directed rules: list against list, dict
against dict and set against set use the structural equality of the
Python equality operator; numeric against numeric uses the absolute
difference bound 1e-9; string against string uses case-insensitive
trimmed equality; any other combination falls back to equality of the
string representations, and the fallback applies exactly when no
type-specific rule matches. -/
theorem c5_comparator_type_rules (r e : Value) :
    ((isListV r && isListV e) = true → compareOutputs r e = pyEq r e) ∧
    ((isDictV r && isDictV e) = true → compareOutputs r e = pyEq r e) ∧
    ((isSetV r && isSetV e) = true → compareOutputs r e = pyEq r e) ∧
    ((isNumV r && isNumV e) = true → compareOutputs r e = numAbsDiffLtEps r e) ∧
    ((isStrV r && isStrV e) = true →
      compareOutputs r e = (stripLower (pyStr r) == stripLower (pyStr e))) ∧
    ((isListV r && isListV e) = false → (isDictV r && isDictV e) = false →
      (isSetV r && isSetV e) = false → (isNumV r && isNumV e) = false →
      (isStrV r && isStrV e) = false →
      compareOutputs r e = (pyStr r == pyStr e)) := by
  cases r <;> cases e <;>
    simp [compareOutputs, isListV, isDictV, isSetV, isNumV, isStrV, numVal]

/-- Witness for claim C5 at concrete inputs: two strings that differ in
case and surrounding whitespace hit the string rule, and a None value
against the string None hits the representation fallback. -/
theorem c5_witness :
    compareOutputs (Value.vStr " Hello") (Value.vStr "hello  ") =
      (stripLower (pyStr (Value.vStr " Hello")) ==
        stripLower (pyStr (Value.vStr "hello  "))) ∧
    compareOutputs Value.vNone (Value.vStr "None") =
      (pyStr Value.vNone == pyStr (Value.vStr "None")) := by
  refine ⟨?_, ?_⟩
  · exact (c5_comparator_type_rules (Value.vStr " Hello")
      (Value.vStr "hello  ")).2.2.2.2.1 (by decide)
  · exact (c5_comparator_type_rules Value.vNone
      (Value.vStr "None")).2.2.2.2.2 (by decide) (by decide) (by decide)
      (by decide) (by decide)

/-- Claim C10: because Python bool is a subclass of int, the numeric
rule of the comparator applies whenever one side is a boolean and the
other numeric; True is judged equivalent to 1 and False to 0, and the
string fallback, under which True would not equal 1, is not reached. -/
theorem c10_bool_numeric (b : Bool) (y : Value) :
    (isNumV y = true →
      compareOutputs (Value.vBool b) y = numAbsDiffLtEps (Value.vBool b) y ∧
      compareOutputs y (Value.vBool b) = numAbsDiffLtEps y (Value.vBool b)) ∧
    compareOutputs (Value.vBool true) (Value.vInt 1) = true ∧
    compareOutputs (Value.vBool false) (Value.vInt 0) = true ∧
    compareOutputs (Value.vBool true) (Value.vFloat (PyFloat.fin 1)) = true ∧
    (pyStr (Value.vBool true) == pyStr (Value.vInt 1)) = false := by
  refine ⟨?_, by with_unfolding_all decide, by with_unfolding_all decide,
    by with_unfolding_all decide, ?_⟩
  case refine_2 =>
    have h1 : pyStr (Value.vBool true) = "True" := by simp [pyStr, pyRepr]
    have h2 : pyStr (Value.vInt 1) = toString (1 : Int) := by simp [pyStr, pyRepr]
    rw [h1, h2]
    decide
  intro hy
  cases y <;>
    simp_all [compareOutputs, isListV, isDictV, isSetV, isNumV, isStrV, numVal]

/-- Witness for claim C10 at the concrete numeric neighbour 1. -/
theorem c10_witness :
    compareOutputs (Value.vBool true) (Value.vInt 1) =
      numAbsDiffLtEps (Value.vBool true) (Value.vInt 1) :=
  ((c10_bool_numeric true (Value.vInt 1)).1 (by decide)).1

/-- Claim C7 counterexample: the annotation text Set[bool] contains both
the name set and the name bool; the priority order stated by the claim
classifies it as Set, while the source elif chain tests bool before dict
and set and therefore classifies it as Bool, delivering the boolean pool. -/
theorem c7_counterexample :
    classifySpecOrder "Set[bool]" = TypeCategory.set ∧
    classifyTypeStr "Set[bool]" = TypeCategory.bool ∧
    TypeCategory.set ≠ TypeCategory.bool ∧
    basePoolFor "Set[bool]" = [ Value.vBool true, Value.vBool false] := by
  have h : classifyTypeStr "Set[bool]" = TypeCategory.bool := by decide
  refine ⟨by decide, h, by decide, ?_⟩
  unfold basePoolFor
  rw [h]
  rfl

/-- Claim C7 amended: the classifier maps every parameter type text by
lowercase substring match, with the first match winning in the order
int, float, str, list, bool, dict, set, and yields the Unknown fallback
category when no name matches; an annotation containing both set and
bool is classified as Bool, because the bool branch precedes the dict
and set branches in the source. -/
theorem c7_classifier_amended (t : String) :
    (classifyTypeStr t = TypeCategory.int ↔
      strHasSub (strLower t) "int" = true) ∧
    (classifyTypeStr t = TypeCategory.float ↔
      (strHasSub (strLower t) "int" = false ∧
        strHasSub (strLower t) "float" = true)) ∧
    (classifyTypeStr t = TypeCategory.str ↔
      (strHasSub (strLower t) "int" = false ∧
        strHasSub (strLower t) "float" = false ∧
        strHasSub (strLower t) "str" = true)) ∧
    (classifyTypeStr t = TypeCategory.list ↔
      (strHasSub (strLower t) "int" = false ∧
        strHasSub (strLower t) "float" = false ∧
        strHasSub (strLower t) "str" = false ∧
        strHasSub (strLower t) "list" = true)) ∧
    (classifyTypeStr t = TypeCategory.bool ↔
      (strHasSub (strLower t) "int" = false ∧
        strHasSub (strLower t) "float" = false ∧
        strHasSub (strLower t) "str" = false ∧
        strHasSub (strLower t) "list" = false ∧
        strHasSub (strLower t) "bool" = true)) ∧
    (classifyTypeStr t = TypeCategory.dict ↔
      (strHasSub (strLower t) "int" = false ∧
        strHasSub (strLower t) "float" = false ∧
        strHasSub (strLower t) "str" = false ∧
        strHasSub (strLower t) "list" = false ∧
        strHasSub (strLower t) "bool" = false ∧
        strHasSub (strLower t) "dict" = true)) ∧
    (classifyTypeStr t = TypeCategory.set ↔
      (strHasSub (strLower t) "int" = false ∧
        strHasSub (strLower t) "float" = false ∧
        strHasSub (strLower t) "str" = false ∧
        strHasSub (strLower t) "list" = false ∧
        strHasSub (strLower t) "bool" = false ∧
        strHasSub (strLower t) "dict" = false ∧
        strHasSub (strLower t) "set" = true)) ∧
    (classifyTypeStr t = TypeCategory.unknown ↔
      (strHasSub (strLower t) "int" = false ∧
        strHasSub (strLower t) "float" = false ∧
        strHasSub (strLower t) "str" = false ∧
        strHasSub (strLower t) "list" = false ∧
        strHasSub (strLower t) "bool" = false ∧
        strHasSub (strLower t) "dict" = false ∧
        strHasSub (strLower t) "set" = false)) := by
  simp only [classifyTypeStr]
  split_ifs with h1 h2 h3 h4 h5 h6 h7 <;> simp_all

/-- Witness for claim C7 amended: the text bool classifies as Bool. -/
theorem c7_witness : classifyTypeStr "bool" = TypeCategory.bool :=
  (c7_classifier_amended "bool").2.2.2.2.1.mpr
    ⟨by decide, by decide, by decide, by decide, by decide⟩

/-- Claim C4: for every test case whose oracle entry stores None, the
variant is scored correct on that case exactly when its own execution
fails: the recorded per-case success flag is the negation of the
execution success, the counting condition equals that same negation, and
the successes field counts exactly the cases whose counting condition
holds, so a variant that succeeds on such a case gains no success. -/
theorem c4_expected_failure_iff (exec : List Value → ExecOutcome)
    (cs : List (List Value × Value)) (i : Nat) (hi : i < cs.length)
    (hnone : cs[i].2 = Value.vNone) :
    (test_version exec cs).test_results[i]? =
      some (caseEntry cs[i].1 cs[i].2 (exec cs[i].1)) ∧
    (caseEntry cs[i].1 cs[i].2 (exec cs[i].1)).success =
      !(exec cs[i].1).success ∧
    countsAsSuccess cs[i].2 (exec cs[i].1) = !(exec cs[i].1).success ∧
    (test_version exec cs).successes =
      cs.countP (fun c => countsAsSuccess c.2 (exec c.1)) := by
  refine ⟨?_, ?_, ?_, ?_⟩
  · rw [test_version_eq]
    simp only [List.getElem?_map, List.getElem?_eq_getElem hi]
    rfl
  · rw [hnone]
    simp [caseEntry, outputValid, isNoneV]
  · rw [hnone]
    simp [countsAsSuccess, outputValid, isNoneV]
  · rw [test_version_eq]

/-- Witness for claim C4: one expected-failure case on which the variant
succeeds; the case is scored as non-matching and the run has no success. -/
theorem c4_witness :
    (([([Value.vInt 0], Value.vNone)] : List (List Value × Value))[0].2 =
      Value.vNone) ∧
    (caseEntry [Value.vInt 0] Value.vNone (execConst ⟨true, Value.vInt 7, 1⟩
      [Value.vInt 0])).success = false ∧
    (test_version (execConst ⟨true, Value.vInt 7, 1⟩)
      [([Value.vInt 0], Value.vNone)]).successes = 0 := by
  have h := c4_expected_failure_iff (execConst ⟨true, Value.vInt 7, 1⟩)
    [([Value.vInt 0], Value.vNone)] 0 (by decide) rfl
  simp only [List.getElem_cons_zero] at h
  refine ⟨rfl, ?_, ?_⟩
  · rw [h.2.1]
    rfl
  · rw [h.2.2.2]
    rfl

/-- Claim C6: the successes field counts exactly the matching cases, and
total_time is the sum of per-case latency contributions, where a
matching case with a non-None expected output contributes its execution
time, every expected-failure case contributes exactly zero, and a
non-matching case contributes zero. -/
theorem c6_latency_exclusion (exec : List Value → ExecOutcome)
    (cs : List (List Value × Value)) :
    (test_version exec cs).successes =
      cs.countP (fun c => countsAsSuccess c.2 (exec c.1)) ∧
    (test_version exec cs).total_time =
      (cs.map (fun c => latencyContrib c.2 (exec c.1))).sum ∧
    (∀ (ex : Value) (o : ExecOutcome), countsAsSuccess ex o = true →
      isNoneV ex = false → latencyContrib ex o = o.time) ∧
    (∀ (ex : Value) (o : ExecOutcome), isNoneV ex = true →
      latencyContrib ex o = 0) ∧
    (∀ (ex : Value) (o : ExecOutcome), countsAsSuccess ex o = false →
      latencyContrib ex o = 0) := by
  refine ⟨?_, ?_, ?_, ?_, ?_⟩
  · rw [test_version_eq]
  · rw [test_version_eq]
  · intro ex o h1 h2
    simp [latencyContrib, h1, h2]
  · intro ex o h1
    simp [latencyContrib, countsAsSuccess, h1]
  · intro ex o h1
    simp [latencyContrib, h1]

/-- Witness for claim C6: a variant that correctly fails one
expected-failure case in one unit of time; the case counts as a success
and contributes zero latency. -/
theorem c6_witness :
    (test_version (execConst ⟨false, Value.vStr "err", 1⟩)
      [([Value.vInt 0], Value.vNone)]).successes = 1 ∧
    (test_version (execConst ⟨false, Value.vStr "err", 1⟩)
      [([Value.vInt 0], Value.vNone)]).total_time = 0 := by
  have h := c6_latency_exclusion (execConst ⟨false, Value.vStr "err", 1⟩)
    [([Value.vInt 0], Value.vNone)]
  refine ⟨?_, ?_⟩
  · rw [h.1]
    rfl
  · rw [h.2.1]
    have h0 := h.2.2.2.1 Value.vNone (⟨false, Value.vStr "err", 1⟩ : ExecOutcome) rfl
    simp [execConst, h0]

/-- Claim C9: within each report the case-to-result mapping is exact:
the report of variant v is the fold of that variant alone over the
shared validation cases, its per-case list has one entry per case, and
the entry at index i records the input and expected output of case i
together with the outcome of executing variant v on exactly that input;
the reports of distinct variants are independent of one another, so the
mapping does not depend on any completion order across variants. -/
theorem c9_per_case_mapping (execs : List (List Value → ExecOutcome))
    (cs : List (List Value × Value)) (v i : Nat)
    (hv : v < execs.length) (hi : i < cs.length) :
    (runAllVariants execs cs).length = execs.length ∧
    (runAllVariants execs cs)[v]? = some (test_version execs[v] cs) ∧
    (test_version execs[v] cs).test_results.length = cs.length ∧
    (test_version execs[v] cs).test_results[i]? =
      some (caseEntry cs[i].1 cs[i].2 (execs[v] cs[i].1)) ∧
    (caseEntry cs[i].1 cs[i].2 (execs[v] cs[i].1)).input = cs[i].1 ∧
    (caseEntry cs[i].1 cs[i].2 (execs[v] cs[i].1)).expected = cs[i].2 ∧
    (caseEntry cs[i].1 cs[i].2 (execs[v] cs[i].1)).output =
      (execs[v] cs[i].1).result ∧
    (caseEntry cs[i].1 cs[i].2 (execs[v] cs[i].1)).time =
      (execs[v] cs[i].1).time := by
  refine ⟨?_, ?_, ?_, ?_, rfl, rfl, rfl, rfl⟩
  · simp [runAllVariants]
  · simp only [runAllVariants, List.getElem?_map, List.getElem?_eq_getElem hv]
    rfl
  · rw [test_version_eq]
    simp
  · rw [test_version_eq]
    simp only [List.getElem?_map, List.getElem?_eq_getElem hi]
    rfl

/-- Witness for claim C9 with two variants and one case: the second
variant's report holds that variant's outcome on the case input. -/
theorem c9_witness :
    (runAllVariants [execConst ⟨true, Value.vInt 1, 1⟩,
        execConst ⟨false, Value.vStr "err", 2⟩]
      [([Value.vInt 3], Value.vInt 1)]).length = 2 ∧
    (test_version (execConst ⟨false, Value.vStr "err", 2⟩)
        [([Value.vInt 3], Value.vInt 1)]).test_results[0]? =
      some (caseEntry [Value.vInt 3] (Value.vInt 1)
        (execConst ⟨false, Value.vStr "err", 2⟩ [Value.vInt 3])) := by
  have h := c9_per_case_mapping
    [execConst ⟨true, Value.vInt 1, 1⟩, execConst ⟨false, Value.vStr "err", 2⟩]
    [([Value.vInt 3], Value.vInt 1)] 1 0 (by decide) (by decide)
  simp only [List.getElem_cons_zero, List.getElem_cons_succ] at h
  exact ⟨h.1, h.2.2.2.1⟩

/-- Claim C2 counterexample: a baseline execution that succeeds and
produces the value None is stored in the oracle as the pair with None,
which is the same value the failure sentinel uses, and test_version then
treats the case as an expected failure: a variant that fails the case is
counted as matching. The claim that a successful null-valued baseline
result is never stored or treated as an expected failure is therefore
false. -/
theorem c2_counterexample :
    (execConst ⟨true, Value.vNone, 0⟩ [Value.vInt 0]).success = true ∧
    validate_functions (execConst ⟨true, Value.vNone, 0⟩) [[Value.vInt 0]] =
      [([Value.vInt 0], Value.vNone)] ∧
    countsAsSuccess Value.vNone ⟨false, Value.vStr "err", 0⟩ = true := by
  exact ⟨rfl, rfl, rfl⟩

/-- Claim C2 amended: for every case where the baseline fails the stored
expected output is None, and for every case where it succeeds the stored
expected output is the produced value; consequently the stored expected
output is None exactly when the baseline failed or succeeded with the
value None, and any oracle entry holding None is treated by the scorer
as an expected failure. -/
theorem c2_oracle_sentinel_amended (be : List Value → ExecOutcome)
    (tcs : List (List Value)) (i : Nat) (hi : i < tcs.length) :
    (validate_functions be tcs).length = tcs.length ∧
    ((be tcs[i]).success = false →
      (validate_functions be tcs)[i]? = some (tcs[i], Value.vNone)) ∧
    ((be tcs[i]).success = true →
      (validate_functions be tcs)[i]? = some (tcs[i], (be tcs[i]).result)) ∧
    ((validate_functions be tcs)[i]? = some (tcs[i], Value.vNone) ↔
      ((be tcs[i]).success = false ∨ (be tcs[i]).result = Value.vNone)) ∧
    (∀ o : ExecOutcome, countsAsSuccess Value.vNone o = !o.success) := by
  have hget : (validate_functions be tcs)[i]? =
      some (if (be tcs[i]).success then (tcs[i], (be tcs[i]).result)
        else (tcs[i], Value.vNone)) := by
    unfold validate_functions
    simp only [List.getElem?_map, List.getElem?_eq_getElem hi]
    rfl
  refine ⟨?_, ?_, ?_, ?_, ?_⟩
  · unfold validate_functions
    simp
  · intro hs
    rw [hget, hs]
    simp
  · intro hs
    rw [hget, hs]
    simp
  · rw [hget]
    cases hs : (be tcs[i]).success with
    | false => simp
    | true => simp
  · intro o
    simp [countsAsSuccess, outputValid, isNoneV]

/-- Witness for claim C2 amended on a one-case oracle whose baseline
fails: the stored expected output is the None sentinel. -/
theorem c2_witness :
    (validate_functions (execConst ⟨false, Value.vStr "err", 0⟩)
      [[Value.vInt 4]])[0]? = some ([Value.vInt 4], Value.vNone) := by
  have h := c2_oracle_sentinel_amended (execConst ⟨false, Value.vStr "err", 0⟩)
    [[Value.vInt 4]] 0 (by decide)
  simp only [List.getElem_cons_zero] at h
  exact h.2.1 rfl

/-- Claim C8 counterexample: for the signature f of one int parameter
with no default value, the pool holds five values, so the synthesizer
returns five single-argument cases and not the six inputs the claim
states. -/
theorem c8_counterexample :
    generate_test_cases (some [⟨"int", none⟩]) =
      [[Value.vInt 0], [Value.vInt 1], [Value.vInt (-1)], [Value.vInt 9999],
        [Value.vInt (-9999)]] ∧
    (generate_test_cases (some [⟨"int", none⟩])).length = 5 := by
  exact ⟨rfl, rfl⟩

/-- Claim C8 amended: for arity one the synthesizer returns the first
six values of the parameter pool as single-argument cases; for an int
parameter this yields the six inputs d, 0, 1, -1, 9999, -9999 when a
default d exists and the five inputs 0, 1, -1, 9999, -9999 otherwise;
for any other arity it returns a prefix, of length at most eight, of the
cross product of the first three values of every pool; and a synthesis
failure returns exactly the fallback cases 0, 1 and 5. -/
theorem c8_synthesizer_amended (p : ParamSpec) (d : Value)
    (sig : List ParamSpec) :
    generate_test_cases (some [p]) =
      ((paramPool p).take 6).map (fun v => [v]) ∧
    generate_test_cases (some [⟨"int", some d⟩]) =
      [[d], [Value.vInt 0], [Value.vInt 1], [Value.vInt (-1)],
        [Value.vInt 9999], [Value.vInt (-9999)]] ∧
    generate_test_cases (some [(⟨"int", none⟩ : ParamSpec)]) =
      [[Value.vInt 0], [Value.vInt 1], [Value.vInt (-1)], [Value.vInt 9999],
        [Value.vInt (-9999)]] ∧
    (sig.length ≠ 1 →
      generate_test_cases (some sig) =
        (cartProd (sig.map (fun p2 => (paramPool p2).take 3))).take 8 ∧
      (generate_test_cases (some sig)).length ≤ 8 ∧
      ∃ rest, cartProd (sig.map (fun p2 => (paramPool p2).take 3)) =
        generate_test_cases (some sig) ++ rest) ∧
    generate_test_cases none = [[Value.vInt 0], [Value.vInt 1], [Value.vInt 5]] := by
  refine ⟨rfl, ?_, rfl, ?_, rfl⟩
  · rfl
  · intro hlen
    have hne : generate_test_cases (some sig) =
        (cartProd (sig.map (fun p2 => (paramPool p2).take 3))).take 8 := by
      cases sig with
      | nil => rfl
      | cons a tail =>
        cases tail with
        | nil => exact absurd rfl hlen
        | cons b tail2 => rfl
    refine ⟨hne, ?_, ?_⟩
    · rw [hne]
      simp [List.length_take]
    · exact ⟨(cartProd (sig.map (fun p2 => (paramPool p2).take 3))).drop 8,
        by rw [hne, List.take_append_drop]⟩

/-- Witness for claim C8 amended at a two-parameter signature of int and
bool: six tuples, the full three-by-two cross product under the cap. -/
theorem c8_witness :
    generate_test_cases (some [⟨"int", none⟩, ⟨"bool", none⟩]) =
      (cartProd ([(⟨"int", none⟩ : ParamSpec), ⟨"bool", none⟩].map
        (fun p2 => (paramPool p2).take 3))).take 8 ∧
    (generate_test_cases (some [⟨"int", none⟩, ⟨"bool", none⟩])).length ≤ 8 := by
  have h := c8_synthesizer_amended ⟨"int", none⟩ Value.vNone
    [⟨"int", none⟩, ⟨"bool", none⟩]
  have h2 := h.2.2.2.1 (by decide)
  exact ⟨h2.1, h2.2.1⟩

/-- Claim C1 counterexample: one healthy deployment and one failed
deployment; the evaluation returns the empty list, so the failed variant
is not recorded with zero successes, the healthy variant is dropped as
well, and the run produces no structured report. -/
theorem c1_counterexample :
    evaluate_variations (execConst ⟨true, Value.vInt 0, 0⟩) [[Value.vInt 0]]
      [some (execConst ⟨true, Value.vInt 0, 0⟩), none] = [] := by
  rfl

/-- Claim C1 amended: when any deployment fails the run is aborted and
the evaluation returns the empty report list, recording nothing for any
variant; only when every deployment succeeds does the evaluation return
one report per variant, each produced by testing that variant against
the shared validation cases. -/
theorem c1_deploy_failure_amended (be : List Value → ExecOutcome)
    (tcs : List (List Value))
    (ds : List (Option (List Value → ExecOutcome)))
    (es : List (List Value → ExecOutcome)) :
    (ds.any Option.isNone = true → evaluate_variations be tcs ds = []) ∧
    (tcs ≠ [] →
      evaluate_variations be tcs (es.map some) =
        es.map (fun e => test_version e (validate_functions be tcs))) := by
  constructor
  · intro h
    unfold evaluate_variations
    by_cases he : (validate_functions be tcs).isEmpty
    · simp [he]
    · simp [he, h]
  · intro h
    unfold evaluate_variations
    have he : (validate_functions be tcs).isEmpty = false := by
      unfold validate_functions
      cases tcs with
      | nil => exact absurd rfl h
      | cons t ts => simp
    simp [he, any_isNone_map_some, filterMap_id_map_some, runAllVariants]

/-- Witness for claim C1 amended: a failed deployment aborts the run,
and an all-healthy deployment list yields one report per variant. -/
theorem c1_witness :
    evaluate_variations (execConst ⟨true, Value.vInt 2, 0⟩) [[Value.vInt 1]]
      [some (execConst ⟨true, Value.vInt 2, 0⟩), none] = [] ∧
    evaluate_variations (execConst ⟨true, Value.vInt 2, 0⟩) [[Value.vInt 1]]
      ([execConst ⟨false, Value.vStr "err", 0⟩].map some) =
      [test_version (execConst ⟨false, Value.vStr "err", 0⟩)
        (validate_functions (execConst ⟨true, Value.vInt 2, 0⟩) [[Value.vInt 1]])] := by
  have h := c1_deploy_failure_amended (execConst ⟨true, Value.vInt 2, 0⟩)
    [[Value.vInt 1]] [some (execConst ⟨true, Value.vInt 2, 0⟩), none]
    [execConst ⟨false, Value.vStr "err", 0⟩]
  exact ⟨h.1 rfl, h.2 (by simp)⟩

lemma maxKeyLtB_false_elim {a b : VersionResults} (h : maxKeyLtB a b = false) :
    b.successes ≤ a.successes ∧
      (b.successes = a.successes → a.total_time ≤ b.total_time) := by
  by_cases h1 : a.successes < b.successes
  · have : maxKeyLtB a b = true := by simp [maxKeyLtB, h1]
    rw [this] at h
    cases h
  · refine ⟨by omega, ?_⟩
    intro he
    by_cases h2 : b.total_time < a.total_time
    · have : maxKeyLtB a b = true := by simp [maxKeyLtB, h1, h2, he]
      rw [this] at h
      cases h
    · exact le_of_not_lt h2

/-- Claim C3: with every report carrying n recorded cases, the selector
returns, when some report has successes equal to n, the fully correct
report of minimal total time, ties broken by encounter order, and the
warning condition of main is false for it; otherwise it returns a report
maximising successes with ties broken by lowest total time, and the
warning condition of main is true for it, so the caller is told the
winner is not fully correct. -/
theorem c3_selector (results : List VersionResults) (n : Nat)
    (hne : results ≠ [])
    (hlen : ∀ r ∈ results, r.test_results.length = n)
    (hinv : ∀ r ∈ results, r.successes ≤ n) :
    ∃ w, select_best_version results = some w ∧ w ∈ results ∧
      ((∃ r ∈ results, r.successes = n) →
        w.successes = n ∧ bestNeedsWarning w = false ∧
        (∀ r ∈ results, r.successes = n → w.total_time ≤ r.total_time) ∧
        (∃ i : Nat, (results.filter fullyCorrectB)[i]? = some w ∧
          ∀ (j : Nat) (r : VersionResults), j < i →
            (results.filter fullyCorrectB)[j]? = some r →
            w.total_time < r.total_time)) ∧
      ((∀ r ∈ results, r.successes ≠ n) →
        (∀ r ∈ results, r.successes ≤ w.successes ∧
          (r.successes = w.successes → w.total_time ≤ r.total_time)) ∧
        bestNeedsWarning w = true) := by
  cases hfc : results.filter fullyCorrectB with
  | cons f fs =>
    have hmemfc : pyMinByTime f fs ∈ results.filter fullyCorrectB := by
      rw [hfc]
      exact pyMinByTime_mem fs f
    have hw := List.mem_filter.mp hmemfc
    have hwmem : pyMinByTime f fs ∈ results := hw.1
    have hwsl : (pyMinByTime f fs).successes =
        (pyMinByTime f fs).test_results.length := by
      have := hw.2
      simpa [fullyCorrectB] using this
    have hwsn : (pyMinByTime f fs).successes = n := by
      rw [hwsl, hlen _ hwmem]
    obtain ⟨hle, i, hget, hfirst⟩ := pyMinByTime_spec fs f
    refine ⟨pyMinByTime f fs, ?_, hwmem, ?_, ?_⟩
    · simp [select_best_version, hfc]
    · intro hex
      refine ⟨hwsn, ?_, ?_, ?_⟩
      · simp [bestNeedsWarning, hwsl]
      · intro r hr hrs
        have hrfc : fullyCorrectB r = true := by
          simp [fullyCorrectB, hlen r hr, hrs]
        have hrin : r ∈ results.filter fullyCorrectB :=
          List.mem_filter.mpr ⟨hr, hrfc⟩
        rw [hfc] at hrin
        exact hle r hrin
      · refine ⟨i, hget, ?_⟩
        intro j r hj hjr
        exact hfirst j r hj hjr
    · intro hall
      exact absurd hwsn (hall _ hwmem)
  | nil =>
    cases results with
    | nil => exact absurd rfl hne
    | cons r0 rs =>
      obtain ⟨hmem, hbound⟩ := pyMaxByKey_spec rs r0
      refine ⟨pyMaxByKey r0 rs, ?_, hmem, ?_, ?_⟩
      · simp [select_best_version, hfc]
      · rintro ⟨r, hr, hrs⟩
        have hrfc : fullyCorrectB r = true := by
          simp [fullyCorrectB, hlen r hr, hrs]
        have hmemf : r ∈ (r0 :: rs).filter fullyCorrectB :=
          List.mem_filter.mpr ⟨hr, hrfc⟩
        rw [hfc] at hmemf
        exact absurd hmemf (List.not_mem_nil r)
      · intro hall
        constructor
        · intro r hr
          exact maxKeyLtB_false_elim (hbound r hr)
        · have hwne := hall _ hmem
          have hwlen := hlen _ hmem
          have hwinv := hinv _ hmem
          simp only [bestNeedsWarning, hwlen]
          simp only [decide_eq_true_eq]
          omega

/-- Witness for claim C3: two fully correct reports over one case; the
selector returns the faster one and the warning condition is false. -/
theorem c3_witness :
    (([⟨1, 5, [⟨[], Value.vInt 0, Value.vInt 0, true, 0⟩]⟩,
        ⟨1, 2, [⟨[], Value.vInt 0, Value.vInt 0, true, 0⟩]⟩] :
      List VersionResults) ≠ []) ∧
    (∃ w, select_best_version
        [⟨1, 5, [⟨[], Value.vInt 0, Value.vInt 0, true, 0⟩]⟩,
          ⟨1, 2, [⟨[], Value.vInt 0, Value.vInt 0, true, 0⟩]⟩] = some w ∧
      w ∈ ([⟨1, 5, [⟨[], Value.vInt 0, Value.vInt 0, true, 0⟩]⟩,
          ⟨1, 2, [⟨[], Value.vInt 0, Value.vInt 0, true, 0⟩]⟩] :
        List VersionResults) ∧
      ((∃ r ∈ ([⟨1, 5, [⟨[], Value.vInt 0, Value.vInt 0, true, 0⟩]⟩,
            ⟨1, 2, [⟨[], Value.vInt 0, Value.vInt 0, true, 0⟩]⟩] :
          List VersionResults), r.successes = 1) →
        w.successes = 1 ∧ bestNeedsWarning w = false ∧
        (∀ r ∈ ([⟨1, 5, [⟨[], Value.vInt 0, Value.vInt 0, true, 0⟩]⟩,
            ⟨1, 2, [⟨[], Value.vInt 0, Value.vInt 0, true, 0⟩]⟩] :
          List VersionResults), r.successes = 1 → w.total_time ≤ r.total_time) ∧
        (∃ i : Nat, (([⟨1, 5, [⟨[], Value.vInt 0, Value.vInt 0, true, 0⟩]⟩,
              ⟨1, 2, [⟨[], Value.vInt 0, Value.vInt 0, true, 0⟩]⟩] :
            List VersionResults).filter fullyCorrectB)[i]? = some w ∧
          ∀ (j : Nat) (r : VersionResults), j < i →
            (([⟨1, 5, [⟨[], Value.vInt 0, Value.vInt 0, true, 0⟩]⟩,
                ⟨1, 2, [⟨[], Value.vInt 0, Value.vInt 0, true, 0⟩]⟩] :
              List VersionResults).filter fullyCorrectB)[j]? = some r →
            w.total_time < r.total_time)) ∧
      ((∀ r ∈ ([⟨1, 5, [⟨[], Value.vInt 0, Value.vInt 0, true, 0⟩]⟩,
            ⟨1, 2, [⟨[], Value.vInt 0, Value.vInt 0, true, 0⟩]⟩] :
          List VersionResults), r.successes ≠ 1) →
        (∀ r ∈ ([⟨1, 5, [⟨[], Value.vInt 0, Value.vInt 0, true, 0⟩]⟩,
            ⟨1, 2, [⟨[], Value.vInt 0, Value.vInt 0, true, 0⟩]⟩] :
          List VersionResults), r.successes ≤ w.successes ∧
          (r.successes = w.successes → w.total_time ≤ r.total_time)) ∧
        bestNeedsWarning w = true)) := by
  constructor
  · simp
  · refine c3_selector _ 1 (by simp) ?_ ?_
    · intro r hr
      rcases List.mem_cons.mp hr with h | h
      · rw [h]
        rfl
      · rcases List.mem_cons.mp h with h | h
        · rw [h]
          rfl
        · exact absurd h (List.not_mem_nil r)
    · intro r hr
      rcases List.mem_cons.mp hr with h | h
      · rw [h]
      · rcases List.mem_cons.mp h with h | h
        · rw [h]
        · exact absurd h (List.not_mem_nil r)
